import Mathlib

/-!
Shallow embedding of the ontology-ts-sdk governance contract transaction
builder (src/smartcontract/nativevm/governanceContractTxBuilder.ts) and the
BigInt codec (common/bigInt.ts), together with the hex-string utilities they
use.  Hex strings are modelled as Lean `String`s (lists of characters), byte
values as `Nat`, integer values as `Nat`/`ℚ`.  Fallible operations return
`Option`/`Except`.
-/

namespace Ontology

/-- Error codes thrown by the SDK.  The source throws
`ERROR_CODE.INVALID_PARAMS` (here `invalidParams`); the spec's error
taxonomy additionally names a distinct `InvalidValue` category for
big-integer construction failures, modelled here as `invalidValue` so the
two can be compared. -/
inductive ErrorCode where
  | invalidParams
  | invalidValue
deriving DecidableEq, Repr

deriving instance DecidableEq for Except

/-- Lower-case hexadecimal digit for a value below 16 (as produced by
JavaScript number/BigNumber toString(16)): code point 48 + d for decimal
digits, 87 + d for the letters a..f. -/
def hexDigitChar (d : Nat) : Char :=
  if d < 10 then Char.ofNat (48 + d) else Char.ofNat (87 + d)

/-- Numeric value of a hexadecimal digit character (both cases accepted, as
by JavaScript parseInt/BigNumber with radix 16), computed from the
character's code point. -/
def hexVal (c : Char) : Option Nat :=
  let n := c.toNat
  if 48 ≤ n ∧ n ≤ 57 then some (n - 48)
  else if 97 ≤ n ∧ n ≤ 102 then some (n - 87)
  else if 65 ≤ n ∧ n ≤ 70 then some (n - 55)
  else none

/-- Fuel-bounded helper for `natHexDigits`; any fuel above the argument
computes the digit string (structural recursion keeps it kernel-reducible). -/
def natHexDigitsGo (fuel n : Nat) : List Char :=
  match fuel with
  | 0 => []
  | fuel + 1 =>
    if n < 16 then [hexDigitChar n]
    else natHexDigitsGo fuel (n / 16) ++ [hexDigitChar (n % 16)]

/-- Minimal big-endian base-16 digit string of a natural number, lower-case,
a single digit for values below 16 (so the digit string of 0 is "0").
Models BigNumber.toString(16) on non-negative integers. -/
def natHexDigits (n : Nat) : List Char :=
  natHexDigitsGo (n + 1) n

/-- Left-pad a digit list with a single zero when its length is odd, as
toHexstr does before byte-reversing. -/
def padEven (l : List Char) : List Char :=
  if l.length % 2 = 1 then '0' :: l else l

/-- Split a character list into consecutive pairs (bytes of a hex string);
a trailing odd character is dropped.  Only applied to even-length strings
by the code modelled here. -/
def toPairs : List Char → List (Char × Char)
  | a :: b :: rest => (a, b) :: toPairs rest
  | _ => []

/-- Flatten a list of character pairs back into a character list. -/
def ofPairs : List (Char × Char) → List Char
  | [] => []
  | (a, b) :: rest => a :: b :: ofPairs rest

/-- Reverse the byte (character-pair) order of a hex character list.
Modelled from the spec: byte-reverse a hex string, converting between
big-endian and little-endian byte order (utils.reverseHex). -/
def charsReverseHex (l : List Char) : List Char :=
  ofPairs (toPairs l).reverse

/-- String version of `charsReverseHex` (utils.reverseHex). -/
def reverseHex (s : String) : String :=
  ⟨charsReverseHex s.data⟩

/-- Accumulating big-endian base-16 parse; `none` as soon as a non-digit is
met.  Models strict whole-string parsing as done by BigNumber(str, 16). -/
def parseHexAux : List Char → Nat → Option Nat
  | [], acc => some acc
  | c :: cs, acc =>
    match hexVal c with
    | none => none
    | some d => parseHexAux cs (acc * 16 + d)

/-- Strict base-16 parse of a character list; the empty list parses to
`none` (BigNumber of the empty string is NaN). -/
def parseHex (l : List Char) : Option Nat :=
  if l.isEmpty then none else parseHexAux l 0

/-- Render a byte list as a hex character list, two lower-case digits per
byte. -/
def hexOfBytes (bs : List Nat) : List Char :=
  bs.flatMap (fun b => [hexDigitChar (b / 16), hexDigitChar (b % 16)])

/-- Parse a hex character list into its byte values; `none` on a non-digit
or an odd length. -/
def hexBytes? : List Char → Option (List Nat)
  | [] => some []
  | a :: b :: rest => do
    let x ← hexVal a
    let y ← hexVal b
    let r ← hexBytes? rest
    pure ((16 * x + y) :: r)
  | _ => none

/-- Value of a little-endian byte list. -/
def valueLE : List Nat → Nat
  | [] => 0
  | b :: bs => b + 256 * valueLE bs

/-- Fuel-bounded helper for `leBytes`; any fuel above the argument computes
the digit list. -/
def leBytesGo (fuel n : Nat) : List Nat :=
  match fuel with
  | 0 => []
  | fuel + 1 =>
    if n = 0 then []
    else n % 256 :: leBytesGo fuel (n / 256)

/-- Little-endian base-256 digits of a natural number, empty for 0. -/
def leBytes (n : Nat) : List Nat :=
  leBytesGo (n + 1) n

/-- Minimal big-endian byte representation of a natural number, a single
zero byte for 0.  This is the byte reading of the even-padded minimal hex
representation the spec describes. -/
def minBytesBE (n : Nat) : List Nat :=
  if n = 0 then [0] else (leBytes n).reverse

/-- UTF-8 byte sequence of a single character.  Modelled from the spec:
strings are converted to their UTF-8 byte representation before hex
encoding (utils.str2hexstr). -/
def char2bytes (c : Char) : List Nat :=
  let n := c.toNat
  if n < 0x80 then [n]
  else if n < 0x800 then [0xc0 + n / 64, 0x80 + n % 64]
  else if n < 0x10000 then
    [0xe0 + n / 4096, 0x80 + (n / 64) % 64, 0x80 + n % 64]
  else
    [0xf0 + n / 262144, 0x80 + (n / 4096) % 64, 0x80 + (n / 64) % 64,
      0x80 + n % 64]

/-- Hex encoding of a string's UTF-8 bytes (utils.str2hexstr).  Modelled
from the spec: UTF-8-derived hex strings. -/
def str2hexstr (s : String) : String :=
  ⟨hexOfBytes (s.data.flatMap char2bytes)⟩

/-- UTF-8 decoding of a byte list back into characters; malformed suffixes
are dropped.  Modelled from the spec, inverse of `char2bytes`. -/
def bytes2chars : List Nat → List Char
  | [] => []
  | b :: rest =>
    if b < 0x80 then Char.ofNat b :: bytes2chars rest
    else if b < 0xe0 then
      match rest with
      | b2 :: r => Char.ofNat ((b - 0xc0) * 64 + (b2 - 0x80)) :: bytes2chars r
      | [] => []
    else if b < 0xf0 then
      match rest with
      | b2 :: b3 :: r =>
        Char.ofNat ((b - 0xe0) * 4096 + (b2 - 0x80) * 64 + (b3 - 0x80)) ::
          bytes2chars r
      | _ => []
    else
      match rest with
      | b2 :: b3 :: b4 :: r =>
        Char.ofNat ((b - 0xf0) * 262144 + (b2 - 0x80) * 4096 +
          (b3 - 0x80) * 64 + (b4 - 0x80)) :: bytes2chars r
      | _ => []

/-- Decode a hex string into the string whose UTF-8 bytes it spells
(utils.hexstr2str); an unparsable hex string decodes to the empty string.
Modelled from the spec. -/
def hexstr2str (s : String) : String :=
  match hexBytes? s.data with
  | some bs => ⟨bytes2chars bs⟩
  | none => ""

/-- Fixed-width hex rendering of a number: `size` bytes (2·size digits),
zero-padded on the left, byte-reversed when `littleEndian` is true.
Modelled from the spec: fixed-width little-endian integers of configurable
byte width (utils.num2hexstring). -/
def num2hexstring (num size : Nat) (littleEndian : Bool) : String :=
  let h := natHexDigits num
  let h := List.replicate (2 * size - h.length) '0' ++ h
  if littleEndian then ⟨charsReverseHex h⟩ else ⟨h⟩

/-- Variable-length integer encoding.  Modelled from the spec: 1 byte if
the value is below 0xFD; marker fd plus 2-byte little-endian value up to
0xFFFF; marker fe plus 4 bytes up to 0xFFFFFFFF; marker ff plus 8 bytes
otherwise (utils.num2VarInt). -/
def num2VarInt (num : Nat) : String :=
  if num < 0xfd then num2hexstring num 1 true
  else if num ≤ 0xffff then "fd" ++ num2hexstring num 2 true
  else if num ≤ 0xffffffff then "fe" ++ num2hexstring num 4 true
  else "ff" ++ num2hexstring num 8 true

/-- Length-prefix a hex blob: the byte count as a var-int, then the blob
(utils.hex2VarBytes). -/
def hex2VarBytes (hex : String) : String :=
  num2VarInt (hex.length / 2) ++ hex

/-- Length-prefixed encoding of a string's UTF-8 hex (utils.str2VarBytes). -/
def str2VarBytes (s : String) : String :=
  hex2VarBytes (str2hexstr s)

/-- Cursor over a hex digit sequence; `pos` counts characters (2 per byte).
Models utils.StringReader. -/
structure StringReader where
  str : List Char
  pos : Nat
deriving DecidableEq, Repr

/-- Create a reader positioned at the start of a hex string (the
StringReader constructor). -/
def StringReader.mk0 (s : String) : StringReader :=
  ⟨s.data, 0⟩

/-- Consume `bytes` bytes (2·bytes characters), returning them and the
advanced reader; `none` when fewer remain.  Modelled from the spec: reading
past the end of the buffer is a failure, no partial results. -/
def StringReader.read (sr : StringReader) (bytes : Nat) :
    Option (List Char × StringReader) :=
  if sr.pos + 2 * bytes ≤ sr.str.length then
    some ((sr.str.drop sr.pos).take (2 * bytes),
      ⟨sr.str, sr.pos + 2 * bytes⟩)
  else none

/-- Read `bytes` bytes and decode them as a little-endian unsigned integer
(StringReader.readNum: parse the byte-reversed hex at radix 16). -/
def StringReader.readNum (sr : StringReader) (bytes : Nat) :
    Option (Nat × StringReader) := do
  let (cs, sr') ← sr.read bytes
  let n ← parseHex (charsReverseHex cs)
  pure (n, sr')

/-- Read a 4-byte little-endian integer (StringReader.readInt). -/
def StringReader.readInt (sr : StringReader) : Option (Nat × StringReader) :=
  sr.readNum 4

/-- Read an 8-byte little-endian integer (StringReader.readLong). -/
def StringReader.readLong (sr : StringReader) : Option (Nat × StringReader) :=
  sr.readNum 8

/-- Read a 4-byte little-endian unsigned integer.  Modelled from the spec:
uint32 fields are 4-byte little-endian (StringReader.readUint32). -/
def StringReader.readUint32 (sr : StringReader) : Option (Nat × StringReader) :=
  sr.readNum 4

/-- Read a variable-length integer.  Modelled from the spec: first byte
below 0xFD is the value itself; 0xFD, 0xFE, 0xFF announce a 2-, 4- or
8-byte little-endian value (StringReader.readNextLen). -/
def StringReader.readNextLen (sr : StringReader) : Option (Nat × StringReader) := do
  let (c0, sr') ← sr.read 1
  let len ← parseHex c0
  if len = 0xfd then sr'.readNum 2
  else if len = 0xfe then sr'.readNum 4
  else if len = 0xff then sr'.readNum 8
  else pure (len, sr')

/-- Read a length-prefixed byte string, returned as its hex characters; a
zero length yields the empty string without reading further
(StringReader.readNextBytes). -/
def StringReader.readNextBytes (sr : StringReader) : Option (String × StringReader) := do
  let (len, sr') ← sr.readNextLen
  if len = 0 then pure ("", sr')
  else
    let (cs, sr2) ← sr'.read len
    pure (⟨cs⟩, sr2)

/-- A 20-byte account identifier, carried as its 40-character serialized
hex form.  Modelled from the spec: a fixed-width 20-byte identifier with no
internal structure beyond its raw bytes. -/
structure Address where
  value : String
deriving DecidableEq, Repr

/-- Serialize an address: its fixed 20-byte hex run, no length prefix
(Address.serialize). -/
def Address.serialize (a : Address) : String :=
  a.value

/-- Deserialize an address: read a fixed 20-byte run (Address.deserialize). -/
def Address.deserialize (sr : StringReader) : Option (Address × StringReader) := do
  let (cs, sr') ← sr.read 20
  pure (⟨⟨cs⟩⟩, sr')

/-- Governance state pointer record (class GovernanceView). -/
structure GovernanceView where
  view : Nat
  height : Nat
  txhash : String
deriving DecidableEq, Repr

/-- Decode a GovernanceView: two 4-byte little-endian integers, then a
length-prefixed byte string (GovernanceView.deserialize). -/
def GovernanceView.deserialize (sr : StringReader) :
    Option (GovernanceView × StringReader) := do
  let (view, sr1) ← sr.readInt
  let (height, sr2) ← sr1.readInt
  let (txhash, sr3) ← sr2.readNextBytes
  pure (⟨view, height, txhash⟩, sr3)

/-- Encode a GovernanceView (GovernanceView.serialize). -/
def GovernanceView.serialize (g : GovernanceView) : String :=
  num2hexstring g.view 4 true ++ num2hexstring g.height 4 true ++
    hex2VarBytes g.txhash

/-- Peer state record in the pool (class PeerPoolItem). -/
structure PeerPoolItem where
  index : Nat
  peerPubkey : String
  address : Address
  status : Nat
  initPos : Nat
  totalPos : Nat
deriving DecidableEq, Repr

/-- Decode a PeerPoolItem: uint32 index, length-prefixed UTF-8 pubkey,
20-byte address, 1-byte status (parsed big-endian), uint64 initPos and
totalPos (PeerPoolItem.deserialize). -/
def PeerPoolItem.deserialize (sr : StringReader) :
    Option (PeerPoolItem × StringReader) := do
  let (index, sr1) ← sr.readInt
  let (pkHex, sr2) ← sr1.readNextBytes
  let (address, sr3) ← Address.deserialize sr2
  let (statusChars, sr4) ← sr3.read 1
  let status ← parseHex statusChars
  let (initPos, sr5) ← sr4.readLong
  let (totalPos, sr6) ← sr5.readLong
  pure (⟨index, hexstr2str pkHex, address, status, initPos, totalPos⟩, sr6)

/-- Encode a PeerPoolItem: uint32 index (LE), var-bytes pubkey, raw
address, 1-byte status (big-endian, default num2hexstring), uint64 initPos
and totalPos (LE) (PeerPoolItem.serialize). -/
def PeerPoolItem.serialize (p : PeerPoolItem) : String :=
  num2hexstring p.index 4 true ++ str2VarBytes p.peerPubkey ++
    p.address.serialize ++ num2hexstring p.status 1 false ++
    num2hexstring p.initPos 8 true ++ num2hexstring p.totalPos 8 true

/-- Peer attributes record (class PeerAttributes). -/
structure PeerAttributes where
  peerPubkey : String
  ifAuthorize : Nat
  oldPeerCost : Nat
  newPeerCost : Nat
  setCostView : Nat
  field1 : String
  field2 : String
  field3 : String
  field4 : String
deriving DecidableEq, Repr

/-- A freshly constructed PeerAttributes (new PeerAttributes()); the TS
class leaves every field undefined, modelled as zero/empty defaults. -/
def PeerAttributes.new : PeerAttributes :=
  ⟨"", 0, 0, 0, 0, "", "", "", ""⟩

/-- Decode a PeerAttributes: var-bytes pubkey, var-length ifAuthorize flag,
two uint64 costs, uint32 setCostView, four reserved var-bytes fields
(PeerAttributes.deserialize). -/
def PeerAttributes.deserialize (sr : StringReader) :
    Option (PeerAttributes × StringReader) := do
  let (pkHex, sr1) ← sr.readNextBytes
  let (ifAuthorize, sr2) ← sr1.readNextLen
  let (oldPeerCost, sr3) ← sr2.readLong
  let (newPeerCost, sr4) ← sr3.readLong
  let (setCostView, sr5) ← sr4.readUint32
  let (field1, sr6) ← sr5.readNextBytes
  let (field2, sr7) ← sr6.readNextBytes
  let (field3, sr8) ← sr7.readNextBytes
  let (field4, sr9) ← sr8.readNextBytes
  pure (⟨hexstr2str pkHex, ifAuthorize, oldPeerCost, newPeerCost,
    setCostView, field1, field2, field3, field4⟩, sr9)

/-- Encode a PeerAttributes: the source returns the empty string
unconditionally (PeerAttributes.serialize). -/
def PeerAttributes.serialize (_pr : PeerAttributes) : String :=
  ""

/-- Fee-split record (class SplitFeeAddress). -/
structure SplitFeeAddress where
  address : Address
  amount : Nat
deriving DecidableEq, Repr

/-- A freshly constructed SplitFeeAddress (new SplitFeeAddress()); address
is left undefined in TS (modelled empty) and amount is initialised to 0. -/
def SplitFeeAddress.new : SplitFeeAddress :=
  ⟨⟨""⟩, 0⟩

/-- Decode a SplitFeeAddress: 20-byte address then uint64 amount
(SplitFeeAddress.deserialize). -/
def SplitFeeAddress.deserialize (sr : StringReader) :
    Option (SplitFeeAddress × StringReader) := do
  let (address, sr1) ← Address.deserialize sr
  let (amount, sr2) ← sr1.readLong
  pure (⟨address, amount⟩, sr2)

/-- Per-address authorization record (class AuthorizeInfo). -/
structure AuthorizeInfo where
  peerPubkey : String
  address : Address
  consensusPos : Nat
  freezePos : Nat
  newPos : Nat
  withdrawPos : Nat
  withdrawFreezePos : Nat
  withdrawUnfreezePos : Nat
deriving DecidableEq, Repr

/-- A freshly constructed AuthorizeInfo (new AuthorizeInfo()); every field
is left undefined in TS, modelled as zero/empty defaults. -/
def AuthorizeInfo.new : AuthorizeInfo :=
  ⟨"", ⟨""⟩, 0, 0, 0, 0, 0, 0⟩

/-- Decode an AuthorizeInfo: var-bytes pubkey, 20-byte address, six uint64
position fields in fixed order (AuthorizeInfo.deserialize). -/
def AuthorizeInfo.deserialize (sr : StringReader) :
    Option (AuthorizeInfo × StringReader) := do
  let (pkHex, sr1) ← sr.readNextBytes
  let (address, sr2) ← Address.deserialize sr1
  let (consensusPos, sr3) ← sr2.readLong
  let (freezePos, sr4) ← sr3.readLong
  let (newPos, sr5) ← sr4.readLong
  let (withdrawPos, sr6) ← sr5.readLong
  let (withdrawFreezePos, sr7) ← sr6.readLong
  let (withdrawUnfreezePos, sr8) ← sr7.readLong
  pure (⟨hexstr2str pkHex, address, consensusPos, freezePos, newPos,
    withdrawPos, withdrawFreezePos, withdrawUnfreezePos⟩, sr8)

/-- Big positive integer value object (class BigInt in common/bigInt.ts).
Instances are only produced by `BigInt.create`, which validates the value,
so `value` is always a non-negative integer. -/
structure BigInt where
  value : ℚ
deriving DecidableEq, Repr

/-- Validating constructor (new BigInt(value)).  The input is the numeric
value BigNumber parses from the string/number argument, `none` standing
for NaN (e.g. BigNumber of the empty string).  The source throws
ERROR_CODE.INVALID_PARAMS when the parsed value is not an integer or is
negative; NaN satisfies neither isInteger nor isNegative, so it is
rejected by the isInteger test. -/
def BigInt.create (v : Option ℚ) : Except ErrorCode BigInt :=
  match v with
  | none => .error .invalidParams
  | some q => if q.den ≠ 1 ∨ q < 0 then .error .invalidParams else .ok ⟨q⟩

/-- Encode a BigInt (BigInt.toHexstr): minimal base-16 representation of
the value (BigNumber.toString(16)), zero-padded to an even digit count,
then byte-reversed.  The constructor guarantees the value is a
non-negative integer, so it is read off as `value.num.toNat`. -/
def BigInt.toHexstr (b : BigInt) : String :=
  ⟨charsReverseHex (padEven (natHexDigits b.value.num.toNat))⟩

/-- Decode a BigInt (BigInt.fromHexstr): byte-reverse the hex back to
big-endian, parse it at radix 16 (NaN for the empty or an invalid string),
and run the validating constructor on the result. -/
def BigInt.fromHexstr (hex : String) : Except ErrorCode BigInt :=
  BigInt.create ((parseHex (charsReverseHex hex.data)).map (fun n => (n : ℚ)))

/-- A field appended to a parameter struct: a (hex) string or a number
(struct.add in the source takes both kinds). -/
inductive StructField where
  | str (s : String)
  | num (n : Nat)
deriving DecidableEq, Repr

/-- Parameter struct payload of makeRegisterCandidateTx: the struct-field
list the source builds before handing it to the (out-of-scope) native
transaction envelope.  varifyPositiveInt rejects a non-positive initPos
with INVALID_PARAMS; an ontid whose first three characters are exactly
"did" is hex-converted, any other ontid is used unchanged. -/
def makeRegisterCandidateTx (ontid peerPubKey : String) (keyNo : Nat)
    (userAddr : Address) (initPos : Nat) :
    Except ErrorCode (List StructField) :=
  if initPos = 0 then .error .invalidParams
  else
    let ontid := if ontid.take 3 = "did" then str2hexstr ontid else ontid
    .ok [.str (str2hexstr peerPubKey), .str userAddr.serialize,
      .num initPos, .str ontid, .num keyNo]

/-- Shared struct layout of the vote-style operations: user address, peer
count, hex-converted peer keys, amount count, amounts. -/
def voteStructFields (userAddr : Address) (peerPubKeys : List String)
    (posList : List Nat) : List StructField :=
  [.str userAddr.serialize, .num peerPubKeys.length] ++
    peerPubKeys.map (fun p => .str (str2hexstr p)) ++
    [.num posList.length] ++ posList.map .num

/-- Parameter struct payload of makeVoteForPeerTx: rejects mismatched
parallel array lengths with INVALID_PARAMS before building any field. -/
def makeVoteForPeerTx (userAddr : Address) (peerPubKeys : List String)
    (posList : List Nat) : Except ErrorCode (List StructField) :=
  if peerPubKeys.length ≠ posList.length then .error .invalidParams
  else .ok (voteStructFields userAddr peerPubKeys posList)

/-- Parameter struct payload of makeUnvoteForPeerTx: rejects mismatched
parallel array lengths with INVALID_PARAMS before building any field. -/
def makeUnvoteForPeerTx (userAddr : Address) (peerPubKeys : List String)
    (posList : List Nat) : Except ErrorCode (List StructField) :=
  if peerPubKeys.length ≠ posList.length then .error .invalidParams
  else .ok (voteStructFields userAddr peerPubKeys posList)

/-- Parameter struct payload of makeWithdrawTx: rejects mismatched
parallel array lengths with INVALID_PARAMS before building any field. -/
def makeWithdrawTx (userAddr : Address) (peerPubKeys : List String)
    (withdrawList : List Nat) : Except ErrorCode (List StructField) :=
  if peerPubKeys.length ≠ withdrawList.length then .error .invalidParams
  else .ok (voteStructFields userAddr peerPubKeys withdrawList)

/-- Parameter struct payload of makeAuthorizeForPeerTx: the source builds
the same field layout but performs no length comparison. -/
def makeAuthorizeForPeerTx (userAddr : Address) (peerPubKeyList : List String)
    (posList : List Nat) : Except ErrorCode (List StructField) :=
  .ok (voteStructFields userAddr peerPubKeyList posList)

/-- Parameter struct payload of makeUnauthorizeForPeerTx: the source builds
the same field layout but performs no length comparison. -/
def makeUnauthorizeForPeerTx (userAddr : Address) (peerPubKeyList : List String)
    (posList : List Nat) : Except ErrorCode (List StructField) :=
  .ok (voteStructFields userAddr peerPubKeyList posList)

/-- Key tag for peer attribute records (constant PEER_ATTRIBUTES). -/
def PEER_ATTRIBUTES : String := "peerAttributes"

/-- Key tag for fee-split records (constant SPLIT_FEE_ADDRESS). -/
def SPLIT_FEE_ADDRESS : String := "splitFeeAddress"

/-- Key tag for authorization records (constant AUTHORIZE_INFO_POOL). -/
def AUTHORIZE_INFO_POOL : String := "authorizeInfoPool"

/-- Storage query getAttributes, with the REST collaborator abstracted as a
`fetch` function from a hex storage key to an optional result blob (`none`
for an absent record).  A falsy result (absent or empty) yields a freshly
constructed PeerAttributes without any decode; otherwise the blob is
decoded, a failing decode propagating as `none`. -/
def getAttributes (fetch : String → Option String) (peerPubKey : String) :
    Option PeerAttributes :=
  match fetch (str2hexstr PEER_ATTRIBUTES ++ peerPubKey) with
  | none => some PeerAttributes.new
  | some r =>
    if r = "" then some PeerAttributes.new
    else (PeerAttributes.deserialize (StringReader.mk0 r)).map Prod.fst

/-- Storage query getSplitFeeAddress, REST collaborator abstracted as in
`getAttributes`. -/
def getSplitFeeAddress (fetch : String → Option String) (address : Address) :
    Option SplitFeeAddress :=
  match fetch (str2hexstr SPLIT_FEE_ADDRESS ++ address.serialize) with
  | none => some SplitFeeAddress.new
  | some r =>
    if r = "" then some SplitFeeAddress.new
    else (SplitFeeAddress.deserialize (StringReader.mk0 r)).map Prod.fst

/-- Storage query getAuthorizeInfo, REST collaborator abstracted as in
`getAttributes`. -/
def getAuthorizeInfo (fetch : String → Option String) (peerPubKey : String)
    (address : Address) : Option AuthorizeInfo :=
  match fetch (str2hexstr AUTHORIZE_INFO_POOL ++ peerPubKey ++ address.serialize) with
  | none => some AuthorizeInfo.new
  | some r =>
    if r = "" then some AuthorizeInfo.new
    else (AuthorizeInfo.deserialize (StringReader.mk0 r)).map Prod.fst

/-- JavaScript-object insertion used by getPeerPoolMap's
`result[p.peerPubkey] = p`: re-assigning an existing key replaces its value
in place, a new key is appended. -/
def objInsert (m : List (String × PeerPoolItem)) (k : String)
    (v : PeerPoolItem) : List (String × PeerPoolItem) :=
  if m.any (fun e => e.1 == k) then
    m.map (fun e => if e.1 == k then (k, v) else e)
  else m ++ [(k, v)]

/-- The decode loop of getPeerPoolMap: deserialize `n` pool items in
sequence, inserting each under its peer public key. -/
def peerPoolLoop : Nat → StringReader → List (String × PeerPoolItem) →
    Option (List (String × PeerPoolItem))
  | 0, _, acc => some acc
  | n + 1, sr, acc => do
    let (p, sr') ← PeerPoolItem.deserialize sr
    peerPoolLoop n sr' (objInsert acc p.peerPubkey p)

/-- Reference sequential decoder: the list of `n` pool items read in order
from the reader. -/
def seqItems : Nat → StringReader → Option (List PeerPoolItem)
  | 0, _ => some []
  | n + 1, sr => do
    let (p, sr') ← PeerPoolItem.deserialize sr
    let ps ← seqItems n sr'
    pure (p :: ps)

/-- Collection query getPeerPoolMap, REST collaborator abstracted as a
`fetch` function.  Decodes the GovernanceView stored under the
hex-encoded "governanceView" key, derives the pool key from the view index
("peerPool" tag plus 4-byte little-endian view), reads a leading 4-byte
count from the fetched blob and decodes that many pool entries into a
mapping keyed by peer public key. -/
def getPeerPoolMap (fetch : String → Option String) :
    Option (List (String × PeerPoolItem)) := do
  let view ← fetch (str2hexstr "governanceView")
  let (governanceView, _) ← GovernanceView.deserialize (StringReader.mk0 view)
  let keyP := str2hexstr "peerPool" ++ num2hexstring governanceView.view 4 true
  let blob ← fetch keyP
  let (length, sr) ← (StringReader.mk0 blob).readInt
  peerPoolLoop length sr []

/-- Modelled from the spec: the big-integer encoding rule, stated at the
byte level — take the integer's minimal big-endian byte representation (the
even-padded minimal hex) and reverse the byte order to little-endian. -/
def specBigIntEncode (n : Nat) : String :=
  ⟨hexOfBytes (minBytesBE n).reverse⟩

/-- Concrete peer-pool record of the end-to-end scenario: index 1, pubkey
"abc", 20 zero bytes of address, status 1, initPos 1000, totalPos 2000. -/
def scenarioItem : PeerPoolItem :=
  ⟨1, "abc", ⟨⟨List.replicate 40 '0'⟩⟩, 1, 1000, 2000⟩

/-- A 52-zero-character hex blob: a valid PeerAttributes encoding (empty
pubkey, zero flag, zero costs, zero view, four empty reserved fields). -/
def zeroAttrBlob : String :=
  ⟨List.replicate 52 '0'⟩

/-- Concrete pool item used to exercise the collection query. -/
def poolItem1 : PeerPoolItem :=
  ⟨7, "pk", ⟨⟨List.replicate 40 '1'⟩⟩, 2, 5, 6⟩

/-- Concrete governance-view blob: view 1, height 100, txhash aabb. -/
def viewBlob : String :=
  GovernanceView.serialize ⟨1, 100, "aabb"⟩

/-- Concrete peer-pool blob: count 1, then `poolItem1`. -/
def poolBlob : String :=
  num2hexstring 1 4 true ++ poolItem1.serialize

/-- Concrete storage with a governance view under the "governanceView" key
and a one-entry pool under the derived "peerPool" key. -/
def demoFetch (k : String) : Option String :=
  if k = str2hexstr "governanceView" then some viewBlob
  else if k = str2hexstr "peerPool" ++ num2hexstring 1 4 true then some poolBlob
  else none

theorem hexVal_hexDigitChar (d : Nat) (h : d < 16) :
    hexVal (hexDigitChar d) = some d := by
  interval_cases d <;> rfl

theorem toPairs_ofPairs (ps : List (Char × Char)) : toPairs (ofPairs ps) = ps := by
  induction ps with
  | nil => rfl
  | cons p ps ih => cases p; simp only [ofPairs, toPairs, ih]

theorem ofPairs_toPairs : ∀ l : List Char, l.length % 2 = 0 →
    ofPairs (toPairs l) = l
  | [], _ => rfl
  | [_], h => by simp at h
  | a :: b :: rest, h => by
    have hr : rest.length % 2 = 0 := by simp at h; omega
    simp only [toPairs, ofPairs]
    rw [ofPairs_toPairs rest hr]

theorem ofPairs_append (ps qs : List (Char × Char)) :
    ofPairs (ps ++ qs) = ofPairs ps ++ ofPairs qs := by
  induction ps with
  | nil => rfl
  | cons p ps ih => cases p; simp [ofPairs, ih]

theorem charsReverseHex_charsReverseHex (l : List Char) (h : l.length % 2 = 0) :
    charsReverseHex (charsReverseHex l) = l := by
  unfold charsReverseHex
  rw [toPairs_ofPairs, List.reverse_reverse, ofPairs_toPairs l h]

theorem parseHexAux_append (l1 l2 : List Char) (acc : Nat) :
    parseHexAux (l1 ++ l2) acc = (parseHexAux l1 acc).bind (parseHexAux l2) := by
  induction l1 generalizing acc with
  | nil => rfl
  | cons c cs ih =>
    simp only [List.cons_append, parseHexAux]
    cases hexVal c <;> simp [ih]

theorem natHexDigitsGo_fuel (n : Nat) : ∀ fuel, n < fuel →
    natHexDigitsGo fuel n = natHexDigits n := by
  induction n using Nat.strong_induction_on with
  | _ n ih =>
    intro fuel hf
    unfold natHexDigits
    cases fuel with
    | zero => omega
    | succ fuel =>
      by_cases h : n < 16
      · simp [natHexDigitsGo, h]
      · have hd : n / 16 < n := Nat.div_lt_self (by omega) (by omega)
        simp only [natHexDigitsGo, h, if_false]
        rw [ih (n / 16) hd fuel (by omega), ih (n / 16) hd n (by omega)]

theorem natHexDigits_eq (n : Nat) : natHexDigits n =
    if n < 16 then [hexDigitChar n]
    else natHexDigits (n / 16) ++ [hexDigitChar (n % 16)] := by
  show natHexDigitsGo (n + 1) n = _
  by_cases h : n < 16
  · simp [natHexDigitsGo, h]
  · simp only [natHexDigitsGo, h, if_false]
    rw [natHexDigitsGo_fuel (n / 16) n (Nat.div_lt_self (by omega) (by omega))]

theorem leBytesGo_fuel (n : Nat) : ∀ fuel, n < fuel →
    leBytesGo fuel n = leBytes n := by
  induction n using Nat.strong_induction_on with
  | _ n ih =>
    intro fuel hf
    unfold leBytes
    cases fuel with
    | zero => omega
    | succ fuel =>
      by_cases h : n = 0
      · simp [leBytesGo, h]
      · have hd : n / 256 < n := Nat.div_lt_self (by omega) (by omega)
        simp only [leBytesGo, h, if_false]
        rw [ih (n / 256) hd fuel (by omega), ih (n / 256) hd n (by omega)]

theorem leBytes_eq (n : Nat) : leBytes n =
    if n = 0 then [] else n % 256 :: leBytes (n / 256) := by
  show leBytesGo (n + 1) n = _
  by_cases h : n = 0
  · simp [leBytesGo, h]
  · simp only [leBytesGo, h, if_false]
    rw [leBytesGo_fuel (n / 256) n (Nat.div_lt_self (by omega) (by omega))]

theorem natHexDigits_length_pos (n : Nat) : 1 ≤ (natHexDigits n).length := by
  rw [natHexDigits_eq]
  split <;> simp

theorem parseHexAux_natHexDigits (n : Nat) :
    ∀ acc, parseHexAux (natHexDigits n) acc =
      some (acc * 16 ^ (natHexDigits n).length + n) := by
  induction n using Nat.strong_induction_on with
  | _ n ih =>
    intro acc
    rw [natHexDigits_eq]
    by_cases h : n < 16
    · simp [h, parseHexAux, hexVal_hexDigitChar n h]
    · simp only [h, if_false]
      rw [parseHexAux_append, ih (n / 16) (Nat.div_lt_self (by omega) (by omega)) acc]
      simp only [Option.some_bind, parseHexAux,
        hexVal_hexDigitChar (n % 16) (Nat.mod_lt n (by omega))]
      have hlen : ((natHexDigits (n / 16)) ++ [hexDigitChar (n % 16)]).length =
          (natHexDigits (n / 16)).length + 1 := by simp
      rw [hlen]
      congr 1
      calc (acc * 16 ^ (natHexDigits (n / 16)).length + n / 16) * 16 + n % 16
          = acc * (16 ^ (natHexDigits (n / 16)).length * 16) +
              (16 * (n / 16) + n % 16) := by ring
        _ = acc * 16 ^ ((natHexDigits (n / 16)).length + 1) + n := by
            rw [Nat.div_add_mod, pow_succ]

theorem parseHex_ne_nil : ∀ l : List Char, l ≠ [] → parseHex l = parseHexAux l 0
  | [], h => absurd rfl h
  | _ :: _, _ => rfl

theorem natHexDigits_ne_nil (n : Nat) : natHexDigits n ≠ [] := by
  intro he
  have h1 := natHexDigits_length_pos n
  rw [he] at h1
  simp at h1

theorem parseHex_natHexDigits (n : Nat) : parseHex (natHexDigits n) = some n := by
  rw [parseHex_ne_nil _ (natHexDigits_ne_nil n), parseHexAux_natHexDigits n 0]
  simp

theorem padEven_length_even (l : List Char) : (padEven l).length % 2 = 0 := by
  unfold padEven
  split
  · simp only [List.length_cons]
    omega
  · omega

theorem parseHex_padEven_natHexDigits (n : Nat) :
    parseHex (padEven (natHexDigits n)) = some n := by
  unfold padEven
  split
  · have h0 : parseHex ('0' :: natHexDigits n) =
        parseHexAux (natHexDigits n) 0 := rfl
    rw [h0, parseHexAux_natHexDigits n 0]
    simp
  · exact parseHex_natHexDigits n

/-- C1: big-integer codec round trip — for every natural number n,
constructing a BigInt from n, encoding it with toHexstr and decoding the
result with fromHexstr yields a BigInt whose value equals n. -/
theorem claim_C1_bigint_roundtrip (n : ℕ) :
    ((BigInt.create (some (n : ℚ))).bind
      (fun b => BigInt.fromHexstr b.toHexstr)).map BigInt.value =
      .ok (n : ℚ) := by
  have hne : ¬ (((n : ℚ)).den ≠ 1 ∨ (n : ℚ) < 0) :=
    not_or.mpr ⟨by simp [Rat.den_natCast], not_lt.mpr (Nat.cast_nonneg n)⟩
  have hcreate : BigInt.create (some (n : ℚ)) = .ok ⟨(n : ℚ)⟩ := by
    show (if ((n : ℚ)).den ≠ 1 ∨ (n : ℚ) < 0 then
      (Except.error ErrorCode.invalidParams : Except ErrorCode BigInt)
      else .ok ⟨(n : ℚ)⟩) = .ok ⟨(n : ℚ)⟩
    rw [if_neg hne]
  have htoNat : ((n : ℚ)).num.toNat = n := by
    rw [Rat.num_natCast, Int.toNat_natCast]
  have hhex : BigInt.toHexstr ⟨(n : ℚ)⟩ =
      ⟨charsReverseHex (padEven (natHexDigits n))⟩ := by
    unfold BigInt.toHexstr
    rw [htoNat]
  have hparse : parseHex (charsReverseHex
      (String.data ⟨charsReverseHex (padEven (natHexDigits n))⟩)) = some n := by
    rw [show String.data ⟨charsReverseHex (padEven (natHexDigits n))⟩ =
      charsReverseHex (padEven (natHexDigits n)) from rfl]
    rw [charsReverseHex_charsReverseHex _ (padEven_length_even _)]
    exact parseHex_padEven_natHexDigits n
  rw [hcreate]
  show (BigInt.fromHexstr (BigInt.toHexstr ⟨(n : ℚ)⟩)).map BigInt.value =
    .ok (n : ℚ)
  rw [hhex]
  unfold BigInt.fromHexstr
  rw [hparse]
  show (BigInt.create (some ((n : ℚ)))).map BigInt.value = .ok (n : ℚ)
  rw [hcreate]
  rfl

/-- C2 counterexample: encoding 0 with the big-integer codec yields the
single zero byte "00", not an empty byte sequence, and decoding the empty
byte sequence fails with InvalidParams (BigNumber parses the empty string
as NaN) instead of yielding 0. -/
theorem claim_C2_counterexample :
    (BigInt.create (some 0)).map BigInt.toHexstr = .ok "00" ∧
    ("00" : String) ≠ "" ∧
    BigInt.fromHexstr "" = .error .invalidParams := by
  decide

/-- C2 (amended): encoding 0 with the big-integer codec yields the single
zero byte "00"; decoding "00" yields 0; decoding an empty byte sequence
fails with InvalidParams. -/
theorem claim_C2_zero_edge :
    (BigInt.create (some 0)).map BigInt.toHexstr = .ok "00" ∧
    (BigInt.fromHexstr "00").map BigInt.value = .ok 0 ∧
    BigInt.fromHexstr "" = .error .invalidParams := by
  decide

/-- C4 counterexample: constructing a BigInt from the negative input -1
fails with InvalidParams, which is a different error than the InvalidValue
the claim names. -/
theorem claim_C4_counterexample :
    BigInt.create (some (-1 : ℚ)) = .error .invalidParams ∧
    (Except.error ErrorCode.invalidParams : Except ErrorCode BigInt) ≠
      .error .invalidValue := by
  decide

/-- C4 (amended): for every input value, BigInt construction fails with
InvalidParams (not InvalidValue) exactly when the value is negative or
non-integral, and succeeds on every non-negative integral input — so
toHexstr, a total function, is defined on all constructed values. -/
theorem claim_C4_create_invariant (q : ℚ) :
    BigInt.create (some q) =
      if q.den = 1 ∧ 0 ≤ q then .ok ⟨q⟩ else .error .invalidParams := by
  show (if q.den ≠ 1 ∨ q < 0 then
      (Except.error ErrorCode.invalidParams : Except ErrorCode BigInt)
      else .ok ⟨q⟩) = _
  by_cases hc : q.den = 1 ∧ 0 ≤ q
  · rw [if_pos hc, if_neg (not_or.mpr ⟨by simp [hc.1], not_lt.mpr hc.2⟩)]
  · have h1 : q.den ≠ 1 ∨ q < 0 := by
      rcases not_and_or.mp hc with h | h
      · exact Or.inl h
      · exact Or.inr (not_le.mp h)
    rw [if_neg hc, if_pos h1]

/-- C3 counterexample: makeAuthorizeForPeerTx and makeUnauthorizeForPeerTx
accept identity/amount lists of lengths 3 and 2 without raising
InvalidParams — they build the struct fields anyway. -/
theorem claim_C3_counterexample :
    makeAuthorizeForPeerTx ⟨""⟩ ["a", "b", "c"] [1, 2] ≠
      .error .invalidParams ∧
    makeUnauthorizeForPeerTx ⟨""⟩ ["a", "b", "c"] [1, 2] ≠
      .error .invalidParams ∧
    makeAuthorizeForPeerTx ⟨""⟩ ["a", "b", "c"] [1, 2] =
      .ok (voteStructFields ⟨""⟩ ["a", "b", "c"] [1, 2]) := by
  refine ⟨by decide, by decide, rfl⟩

/-- C3 (amended): on parallel lists of different lengths,
makeVoteForPeerTx, makeUnvoteForPeerTx and makeWithdrawTx fail with
InvalidParams before building any struct field, while
makeAuthorizeForPeerTx and makeUnauthorizeForPeerTx perform no length
check and build the struct fields regardless. -/
theorem claim_C3_length_check (userAddr : Address) (pks : List String)
    (pos : List Nat) (h : pks.length ≠ pos.length) :
    makeVoteForPeerTx userAddr pks pos = .error .invalidParams ∧
    makeUnvoteForPeerTx userAddr pks pos = .error .invalidParams ∧
    makeWithdrawTx userAddr pks pos = .error .invalidParams ∧
    makeAuthorizeForPeerTx userAddr pks pos =
      .ok (voteStructFields userAddr pks pos) ∧
    makeUnauthorizeForPeerTx userAddr pks pos =
      .ok (voteStructFields userAddr pks pos) := by
  refine ⟨?_, ?_, ?_, rfl, rfl⟩ <;>
    simp [makeVoteForPeerTx, makeUnvoteForPeerTx, makeWithdrawTx, h]

theorem claim_C3_length_check_witness :
    (["a", "b", "c"] : List String).length ≠ ([1, 2] : List Nat).length ∧
    makeVoteForPeerTx ⟨""⟩ ["a", "b", "c"] [1, 2] = .error .invalidParams ∧
    makeAuthorizeForPeerTx ⟨""⟩ ["a", "b", "c"] [1, 2] =
      .ok (voteStructFields ⟨""⟩ ["a", "b", "c"] [1, 2]) := by
  have h := claim_C3_length_check ⟨""⟩ ["a", "b", "c"] [1, 2] (by decide)
  exact ⟨by decide, h.1, h.2.2.2.1⟩

/-- C6: end-to-end peer-pool round trip — deserializing the hex produced
by serializing the record with index 1, pubkey "abc", a 20-zero-byte
address, status 1, initPos 1000 and totalPos 2000 reproduces the identical
record field-for-field. -/
theorem claim_C6_peerpool_roundtrip :
    (PeerPoolItem.deserialize (StringReader.mk0 scenarioItem.serialize)).map
      Prod.fst = some scenarioItem := by
  decide

/-- C9: PeerAttributes.serialize returns the empty string on every
instance; in particular a successfully decoded peer-attributes record
re-encodes to "" and not to the non-empty blob it was decoded from, so
serialize does not invert deserialize. -/
theorem claim_C9_serialize_empty :
    (∀ pr : PeerAttributes, pr.serialize = "") ∧
    (PeerAttributes.deserialize (StringReader.mk0 zeroAttrBlob)).isSome = true ∧
    (PeerAttributes.deserialize (StringReader.mk0 zeroAttrBlob)).map
      (fun x => (x.1).serialize) = some "" ∧
    zeroAttrBlob ≠ "" := by
  exact ⟨fun _ => rfl, by decide, by decide, by decide⟩

/-- C10: in makeRegisterCandidateTx the fourth struct field carries the
ontid hex-converted exactly when its first three characters are "did", and
unchanged otherwise. -/
theorem claim_C10_ontid_conversion (ontid peerPubKey : String) (keyNo : Nat)
    (userAddr : Address) (initPos : Nat) (h : initPos ≠ 0) :
    ∃ fields, makeRegisterCandidateTx ontid peerPubKey keyNo userAddr initPos =
      .ok fields ∧
      fields[3]? = some (.str (if ontid.take 3 = "did" then str2hexstr ontid
        else ontid)) := by
  have hmk : makeRegisterCandidateTx ontid peerPubKey keyNo userAddr initPos =
      .ok [.str (str2hexstr peerPubKey), .str userAddr.serialize, .num initPos,
        .str (if ontid.take 3 = "did" then str2hexstr ontid else ontid),
        .num keyNo] := by
    unfold makeRegisterCandidateTx
    rw [if_neg h]
  exact ⟨_, hmk, rfl⟩

theorem claim_C10_ontid_conversion_witness :
    (1 : Nat) ≠ 0 ∧
    ∃ fields, makeRegisterCandidateTx "did:ont:ab" "pk" 2 ⟨""⟩ 1 =
      .ok fields ∧
      fields[3]? = some (.str (if ("did:ont:ab" : String).take 3 = "did"
        then str2hexstr "did:ont:ab" else "did:ont:ab")) :=
  ⟨by decide, claim_C10_ontid_conversion "did:ont:ab" "pk" 2 ⟨""⟩ 1 (by decide)⟩

/-- C8: absent-record default — when the storage fetch under the
operation's composite key returns an empty result (absent record or empty
blob), getAttributes, getSplitFeeAddress and getAuthorizeInfo each return
the freshly constructed default record without attempting a decode. -/
theorem claim_C8_absent_default (fetch : String → Option String)
    (pk : String) (a : Address) :
    (fetch (str2hexstr PEER_ATTRIBUTES ++ pk) = none ∨
      fetch (str2hexstr PEER_ATTRIBUTES ++ pk) = some "" →
      getAttributes fetch pk = some PeerAttributes.new) ∧
    (fetch (str2hexstr SPLIT_FEE_ADDRESS ++ a.serialize) = none ∨
      fetch (str2hexstr SPLIT_FEE_ADDRESS ++ a.serialize) = some "" →
      getSplitFeeAddress fetch a = some SplitFeeAddress.new) ∧
    (fetch (str2hexstr AUTHORIZE_INFO_POOL ++ pk ++ a.serialize) = none ∨
      fetch (str2hexstr AUTHORIZE_INFO_POOL ++ pk ++ a.serialize) = some "" →
      getAuthorizeInfo fetch pk a = some AuthorizeInfo.new) := by
  refine ⟨fun h => ?_, fun h => ?_, fun h => ?_⟩ <;>
    rcases h with h | h <;>
    simp [getAttributes, getSplitFeeAddress, getAuthorizeInfo, h]

theorem claim_C8_absent_default_witness :
    ((fun _ : String => (none : Option String))
      (str2hexstr PEER_ATTRIBUTES ++ "pk") = none) ∧
    getAttributes (fun _ => none) "pk" = some PeerAttributes.new ∧
    getSplitFeeAddress (fun _ => none) ⟨""⟩ = some SplitFeeAddress.new ∧
    getAuthorizeInfo (fun _ => none) "pk" ⟨""⟩ = some AuthorizeInfo.new := by
  have h := claim_C8_absent_default (fun _ => none) "pk" ⟨""⟩
  exact ⟨rfl, h.1 (Or.inl rfl), h.2.1 (Or.inl rfl), h.2.2 (Or.inl rfl)⟩

theorem padEven_append_two (l : List Char) (a b : Char) :
    padEven (l ++ [a, b]) = padEven l ++ [a, b] := by
  unfold padEven
  have hl : (l ++ [a, b]).length % 2 = l.length % 2 := by
    simp only [List.length_append, List.length_cons, List.length_nil]
    omega
  rw [hl]
  split <;> simp

theorem hexOfBytes_append (x y : List Nat) :
    hexOfBytes (x ++ y) = hexOfBytes x ++ hexOfBytes y := by
  simp [hexOfBytes]

theorem padEven_natHexDigits (n : ℕ) :
    padEven (natHexDigits n) = hexOfBytes (minBytesBE n) := by
  induction n using Nat.strong_induction_on with
  | _ n ih =>
    by_cases h16 : n < 16
    · rw [natHexDigits_eq]
      simp only [h16, if_true]
      by_cases h0 : n = 0
      · subst h0; decide
      · unfold minBytesBE
        rw [if_neg h0, leBytes_eq, if_neg h0,
          show n / 256 = 0 from by omega, leBytes_eq]
        have h1 : n % 256 = n := by omega
        have h2 : n / 16 = 0 := by omega
        have h3 : n % 16 = n := by omega
        simp [hexOfBytes, h1, h2, h3, padEven, hexDigitChar]
    · by_cases h256 : n < 256
      · rw [natHexDigits_eq]
        simp only [h16, if_false]
        rw [natHexDigits_eq]
        have h4 : n / 16 < 16 := by omega
        simp only [h4, if_true]
        unfold minBytesBE
        rw [if_neg (show ¬ n = 0 by omega), leBytes_eq,
          if_neg (show ¬ n = 0 by omega),
          show n / 256 = 0 from by omega, leBytes_eq]
        have h1 : n % 256 = n := by omega
        simp [hexOfBytes, padEven, h1]
      · have hd : n / 256 < n := Nat.div_lt_self (by omega) (by omega)
        have h16b : ¬ n / 16 < 16 := by omega
        rw [natHexDigits_eq]
        simp only [h16, if_false]
        rw [natHexDigits_eq]
        simp only [h16b, if_false]
        rw [show n / 16 / 16 = n / 256 from by omega]
        rw [List.append_assoc]
        simp only [List.singleton_append]
        rw [padEven_append_two, ih (n / 256) hd]
        have hmb : minBytesBE n = minBytesBE (n / 256) ++ [n % 256] := by
          unfold minBytesBE
          rw [if_neg (show ¬ n = 0 by omega),
            if_neg (show ¬ n / 256 = 0 by omega), leBytes_eq,
            if_neg (show ¬ n = 0 by omega)]
          simp
        rw [hmb, hexOfBytes_append]
        congr 1
        have e1 : n % 256 / 16 = n / 16 % 16 := by omega
        have e2 : n % 256 % 16 = n % 16 := by omega
        simp [hexOfBytes, e1, e2]

theorem ofPairs_map_hex (bs : List Nat) :
    ofPairs (bs.map (fun b => (hexDigitChar (b / 16), hexDigitChar (b % 16)))) =
      hexOfBytes bs := by
  induction bs with
  | nil => rfl
  | cons b bs ih =>
    simp only [List.map_cons, ofPairs, ih]
    simp [hexOfBytes]

theorem toPairs_hexOfBytes (bs : List Nat) :
    toPairs (hexOfBytes bs) =
      bs.map (fun b => (hexDigitChar (b / 16), hexDigitChar (b % 16))) := by
  induction bs with
  | nil => rfl
  | cons b bs ih =>
    have hc : hexOfBytes (b :: bs) =
        hexDigitChar (b / 16) :: hexDigitChar (b % 16) :: hexOfBytes bs := by
      simp [hexOfBytes]
    rw [hc]
    simp only [toPairs, ih, List.map_cons]

theorem charsReverseHex_hexOfBytes (bs : List Nat) :
    charsReverseHex (hexOfBytes bs) = hexOfBytes bs.reverse := by
  unfold charsReverseHex
  rw [toPairs_hexOfBytes, ← List.map_reverse, ofPairs_map_hex]

theorem charsReverseHex_cons2 (a b : Char) (rest : List Char) :
    charsReverseHex (a :: b :: rest) = charsReverseHex rest ++ [a, b] := by
  unfold charsReverseHex
  rw [show toPairs (a :: b :: rest) = (a, b) :: toPairs rest from rfl,
    List.reverse_cons, ofPairs_append]
  rfl

theorem parseHexAux_charsReverseHex : ∀ (l : List Char) (bs : List Nat),
    hexBytes? l = some bs → ∀ acc,
    parseHexAux (charsReverseHex l) acc =
      some (acc * 256 ^ bs.length + valueLE bs)
  | [], bs, h, acc => by
    simp only [hexBytes?, Option.some.injEq] at h
    subst h
    simp [charsReverseHex, toPairs, ofPairs, parseHexAux, valueLE]
  | [_], bs, h, acc => by
    simp [hexBytes?] at h
  | a :: b :: rest, bs, h, acc => by
    simp only [hexBytes?] at h
    cases hx : hexVal a with
    | none => rw [hx] at h; simp at h
    | some x =>
      rw [hx] at h
      cases hy : hexVal b with
      | none => rw [hy] at h; simp at h
      | some y =>
        rw [hy] at h
        cases hr : hexBytes? rest with
        | none => rw [hr] at h; simp at h
        | some r =>
          rw [hr] at h
          simp at h
          subst h
          rw [charsReverseHex_cons2,
            parseHexAux_append,
            parseHexAux_charsReverseHex rest r hr acc]
          simp only [Option.some_bind, parseHexAux, hx, hy]
          congr 1
          simp only [List.length_cons, valueLE]
          rw [pow_succ]
          ring

theorem charsReverseHex_ne_nil : ∀ (l : List Char) (bs : List Nat),
    hexBytes? l = some bs → bs ≠ [] → charsReverseHex l ≠ []
  | [], bs, h, hbs => by
    simp only [hexBytes?, Option.some.injEq] at h
    exact absurd h.symm hbs
  | [_], bs, h, _ => by simp [hexBytes?] at h
  | a :: b :: rest, _, _, _ => by
    rw [charsReverseHex_cons2]
    simp

theorem bigIntCreate_natCast (n : ℕ) :
    BigInt.create (some (n : ℚ)) = .ok ⟨(n : ℚ)⟩ := by
  have hne : ¬ (((n : ℚ)).den ≠ 1 ∨ (n : ℚ) < 0) :=
    not_or.mpr ⟨by simp [Rat.den_natCast], not_lt.mpr (Nat.cast_nonneg n)⟩
  show (if ((n : ℚ)).den ≠ 1 ∨ (n : ℚ) < 0 then
    (Except.error ErrorCode.invalidParams : Except ErrorCode BigInt)
    else .ok ⟨(n : ℚ)⟩) = .ok ⟨(n : ℚ)⟩
  rw [if_neg hne]

/-- C5: the big-integer encoding rule — encoding a non-negative integer n
produces exactly the byte-reversed (little-endian) form of n's minimal
even-padded big-endian hex representation (`specBigIntEncode`, written from
the spec's words at the byte level); and decoding a non-empty sequence of
valid hex bytes yields the integer whose little-endian byte values they
are, i.e. the base-16 value of the byte-reversed (big-endian) string. -/
theorem claim_C5_encoding_rule :
    (∀ n : ℕ, (BigInt.create (some (n : ℚ))).map BigInt.toHexstr =
      .ok (specBigIntEncode n)) ∧
    (∀ (s : String) (bs : List Nat), hexBytes? s.data = some bs → bs ≠ [] →
      (BigInt.fromHexstr s).map BigInt.value = .ok ((valueLE bs : ℕ) : ℚ)) := by
  constructor
  · intro n
    rw [bigIntCreate_natCast n]
    show Except.ok (BigInt.toHexstr ⟨(n : ℚ)⟩) = _
    have htoNat : ((n : ℚ)).num.toNat = n := by
      rw [Rat.num_natCast, Int.toNat_natCast]
    unfold BigInt.toHexstr specBigIntEncode
    rw [htoNat, padEven_natHexDigits, charsReverseHex_hexOfBytes]
  · intro s bs h hbs
    unfold BigInt.fromHexstr
    rw [parseHex_ne_nil _ (charsReverseHex_ne_nil s.data bs h hbs),
      parseHexAux_charsReverseHex s.data bs h 0]
    simp only [Nat.zero_mul, Nat.zero_add, Option.map_some]
    show (BigInt.create (some ((valueLE bs : ℕ) : ℚ))).map BigInt.value =
      .ok ((valueLE bs : ℕ) : ℚ)
    rw [bigIntCreate_natCast]
    rfl

theorem claim_C5_encoding_rule_witness :
    (BigInt.create (some ((5 : ℕ) : ℚ))).map BigInt.toHexstr =
      .ok (specBigIntEncode 5) ∧
    hexBytes? ("0a" : String).data = some [10] ∧
    ([10] : List Nat) ≠ [] ∧
    (BigInt.fromHexstr "0a").map BigInt.value = .ok ((valueLE [10] : ℕ) : ℚ) :=
  ⟨claim_C5_encoding_rule.1 5, by decide, by decide,
    claim_C5_encoding_rule.2 "0a" [10] (by decide) (by decide)⟩

theorem objInsert_map_fst (m : List (String × PeerPoolItem)) (k : String)
    (v : PeerPoolItem) :
    (objInsert m k v).map Prod.fst =
      if m.any (fun e => e.1 == k) then m.map Prod.fst
      else m.map Prod.fst ++ [k] := by
  unfold objInsert
  split
  · rw [List.map_map]
    apply List.map_congr_left
    intro e _
    by_cases he : e.1 = k
    · simp [Function.comp, he]
    · simp [Function.comp, he]
  · simp

theorem objInsert_nodup (m : List (String × PeerPoolItem)) (k : String)
    (v : PeerPoolItem) (h : (m.map Prod.fst).Nodup) :
    ((objInsert m k v).map Prod.fst).Nodup := by
  rw [objInsert_map_fst]
  split
  · exact h
  · rename_i hany
    have hk : k ∉ m.map Prod.fst := by
      intro hmem
      rcases List.mem_map.mp hmem with ⟨e, he, hfst⟩
      exact hany (List.any_eq_true.mpr ⟨e, he, by simp [hfst]⟩)
    rw [List.nodup_append]
    refine ⟨h, List.nodup_singleton k, ?_⟩
    intro a ha hak
    rw [List.mem_singleton] at hak
    subst hak
    exact hk ha

theorem objInsert_map_fst_subset (m : List (String × PeerPoolItem)) (k : String)
    (v : PeerPoolItem) :
    (objInsert m k v).map Prod.fst ⊆ m.map Prod.fst ++ [k] := by
  rw [objInsert_map_fst]
  split
  · exact List.subset_append_left _ _
  · exact List.Subset.refl _

theorem peerPoolLoop_eq (n : Nat) : ∀ (sr : StringReader)
    (acc : List (String × PeerPoolItem)),
    peerPoolLoop n sr acc = (seqItems n sr).map
      (fun l => l.foldl (fun m p => objInsert m p.peerPubkey p) acc) := by
  induction n with
  | zero => intro sr acc; rfl
  | succ n ih =>
    intro sr acc
    cases hds : PeerPoolItem.deserialize sr with
    | none => simp [peerPoolLoop, seqItems, hds]
    | some psr =>
      obtain ⟨p, sr'⟩ := psr
      simp only [peerPoolLoop, seqItems, hds, Option.some_bind, ih]
      cases hsi : seqItems n sr' <;> simp [hsi]

theorem foldl_objInsert_nodup : ∀ (items : List PeerPoolItem)
    (m0 : List (String × PeerPoolItem)), (m0.map Prod.fst).Nodup →
    ((items.foldl (fun m p => objInsert m p.peerPubkey p) m0).map Prod.fst).Nodup ∧
    (items.foldl (fun m p => objInsert m p.peerPubkey p) m0).map Prod.fst ⊆
      m0.map Prod.fst ++ items.map PeerPoolItem.peerPubkey
  | [], _, h => ⟨h, by simp⟩
  | p :: items, m0, h => by
    simp only [List.foldl_cons]
    have h1 := objInsert_nodup m0 p.peerPubkey p h
    obtain ⟨hn, hs⟩ := foldl_objInsert_nodup items (objInsert m0 p.peerPubkey p) h1
    refine ⟨hn, ?_⟩
    intro a ha
    have hmem := hs ha
    rw [List.mem_append] at hmem
    rcases hmem with hm | hi
    · have h2 := objInsert_map_fst_subset m0 p.peerPubkey p hm
      rw [List.mem_append] at h2
      rcases h2 with h' | h'
      · exact List.mem_append.mpr (Or.inl h')
      · rw [List.mem_singleton] at h'
        subst h'
        exact List.mem_append.mpr (Or.inr (by simp))
    · exact List.mem_append.mpr (Or.inr (by simp [hi]))

/-- C7: the collection query getPeerPoolMap decodes a GovernanceView from
the blob fetched under the hex-encoded "governanceView" key, derives the
pool key from the view index ("peerPool" tag plus 4-byte little-endian
view), reads a leading count n from the blob fetched under that key, then
decodes exactly n peer-pool entries sequentially and returns the mapping
obtained by inserting each entry under its peer public key — whose keys
are unique and all drawn from the decoded entries' public keys. -/
theorem claim_C7_peer_pool_map (fetch : String → Option String)
    (v : String) (gv : GovernanceView) (sr0 : StringReader) (blob : String)
    (n : Nat) (sr1 : StringReader) (items : List PeerPoolItem)
    (h1 : fetch (str2hexstr "governanceView") = some v)
    (h2 : GovernanceView.deserialize (StringReader.mk0 v) = some (gv, sr0))
    (h3 : fetch (str2hexstr "peerPool" ++ num2hexstring gv.view 4 true) =
      some blob)
    (h4 : (StringReader.mk0 blob).readInt = some (n, sr1))
    (h5 : seqItems n sr1 = some items) :
    getPeerPoolMap fetch =
      some (items.foldl (fun m p => objInsert m p.peerPubkey p) []) ∧
    ((items.foldl (fun m p => objInsert m p.peerPubkey p) []).map
      Prod.fst).Nodup ∧
    (items.foldl (fun m p => objInsert m p.peerPubkey p) []).map Prod.fst ⊆
      items.map PeerPoolItem.peerPubkey := by
  have hfold := foldl_objInsert_nodup items [] (by simp)
  refine ⟨?_, hfold.1, by simpa using hfold.2⟩
  unfold getPeerPoolMap
  simp [h1, h2, h3, h4, peerPoolLoop_eq, h5]

theorem claim_C7_peer_pool_map_witness :
    getPeerPoolMap demoFetch = some [("pk", poolItem1)] ∧
    ((([poolItem1] : List PeerPoolItem).foldl
      (fun m p => objInsert m p.peerPubkey p) []).map Prod.fst).Nodup := by
  have h := claim_C7_peer_pool_map demoFetch viewBlob ⟨1, 100, "aabb"⟩
    (StringReader.mk viewBlob.data 22) poolBlob 1
    (StringReader.mk poolBlob.data 8) [poolItem1]
    (by decide) (by decide) (by decide) (by decide) (by decide)
  exact ⟨h.1, h.2.1⟩

end Ontology
